import Mathlib

/-!
Verification development for the `gd-cli` show-fetching tool
(`src/commands/shows.ts` and `src/services/grateful-dead-archive.ts`).

The TypeScript source is shallowly embedded below.  JavaScript numbers are
modelled by `JsNum` (exact rationals plus the `NaN` and infinity sentinels;
double rounding is not modelled — all numeric literals that occur in the
claims are exactly representable and their order agrees with double order).
Strings are Lean `String`s; the JS string helpers used by the code
(`includes`, `trim`, `toLowerCase`, regex tests) are modelled on `List Char`
via `String.data`.  `String.prototype.localeCompare` is modelled as the
standard linear order on `String` (a fixed total order, which is all the
code relies on).  `Array.prototype.sort` with a consistent comparator is
modelled as a stable insertion sort, which any conforming ES2019 engine must
agree with.
-/

/-- A JavaScript number: `NaN`, the two infinities, or a finite value
(modelled as an exact rational). -/
inductive JsNum where
  | nan : JsNum
  | posInf : JsNum
  | negInf : JsNum
  | num (q : ℚ) : JsNum
deriving DecidableEq

/-- JS truthiness of a number: `NaN`, `0` and `-0` are falsy, everything
else (including the infinities) is truthy. -/
def JsNum.truthy : JsNum → Bool
  | .nan => false
  | .num q => q != 0
  | _ => true

/-- `Number.isFinite`: true exactly on finite numbers. -/
def JsNum.isFinite : JsNum → Bool
  | .num _ => true
  | _ => false

/-- JS whitespace for `String.prototype.trim` and the numeric parsers
(space, tab, newline and friends; modelled by `Char.isWhitespace`). -/
def jsIsWhite (c : Char) : Bool := c.isWhitespace

/-- `String.prototype.trim`: strip whitespace from both ends. -/
def jsTrimList (l : List Char) : List Char :=
  ((l.dropWhile jsIsWhite).reverse.dropWhile jsIsWhite).reverse

/-- `String.prototype.trim` on `String`. -/
def jsTrim (s : String) : String :=
  String.mk (jsTrimList s.data)

/-- `String.prototype.includes`: substring containment. -/
def jsIncludes (needle s : String) : Bool :=
  decide (needle.data <:+: s.data)

/-- `String.prototype.endsWith`. -/
def jsEndsWith (suffix s : String) : Bool :=
  decide (suffix.data <:+ s.data)

/-- ASCII digit, as matched by the regex class `\d`. -/
def isDigitCh (c : Char) : Bool := c.isDigit

/-- Digits of a decimal string as a natural number
(`["4","2"] ↦ 42`). -/
def digitsToNat (l : List Char) : Nat :=
  l.foldl (fun acc c => acc * 10 + (c.toNat - 48)) 0

/-- Value of an integer-literal prefix already split into sign and digits. -/
def signedVal (neg : Bool) (n : Nat) : ℚ :=
  if neg then -(n : ℚ) else (n : ℚ)

/-- `Number.parseInt(s, 10)`: skip leading whitespace, optional sign, then
the longest run of decimal digits; `NaN` when no digit follows the sign.
(Radix 10 is always passed at the call site, so no hex handling.) -/
def jsParseInt (s : String) : JsNum :=
  let l := s.data.dropWhile jsIsWhite
  let (neg, rest) :=
    match l with
    | '-' :: r => (true, r)
    | '+' :: r => (false, r)
    | r => (false, r)
  let ds := rest.takeWhile isDigitCh
  if ds.isEmpty then .nan
  else .num (signedVal neg (digitsToNat ds))

/-- Value of a decimal-literal prefix `int . frac e exp`:
`± (int.frac) · 10^exp`, built with `mkRat` so it evaluates by kernel
reduction. -/
def decimalVal (neg : Bool) (ip fp : List Char) (exp : Int) : ℚ :=
  let n : Nat := digitsToNat ip * 10 ^ fp.length + digitsToNat fp
  let mag : ℚ :=
    if 0 ≤ exp then mkRat (n * 10 ^ exp.toNat) (10 ^ fp.length)
    else mkRat n (10 ^ fp.length * 10 ^ exp.natAbs)
  if neg then -mag else mag

/-- Exponent part of a float literal: consumed only when `e`/`E` is followed
by an (optionally signed) digit run, as in JS's longest-valid-prefix rule
(`parseFloat("1e") = 1`). -/
def parseExpPart (l : List Char) : Int :=
  match l with
  | 'e' :: r | 'E' :: r =>
    let (eneg, r2) :=
      match r with
      | '-' :: r2 => (true, r2)
      | '+' :: r2 => (false, r2)
      | r2 => (false, r2)
    let eds := r2.takeWhile isDigitCh
    if eds.isEmpty then 0
    else if eneg then -(digitsToNat eds : Int) else (digitsToNat eds : Int)
  | _ => 0

/-- `Number.parseFloat`: skip leading whitespace, optional sign, then the
longest prefix that is `Infinity` or a decimal literal
(`digits [. digits] [exp]` or `. digits [exp]`); `NaN` when no such prefix.
Trailing garbage is ignored.  The exact rational value is kept instead of
the rounded double (see the header note). -/
def jsParseFloat (s : String) : JsNum :=
  let l := s.data.dropWhile jsIsWhite
  let (neg, rest) :=
    match l with
    | '-' :: r => (true, r)
    | '+' :: r => (false, r)
    | r => (false, r)
  if "Infinity".data.isPrefixOf rest then
    if neg then .negInf else .posInf
  else
    let ip := rest.takeWhile isDigitCh
    let afterInt := rest.drop ip.length
    let (fp, afterFrac) :=
      match afterInt with
      | '.' :: r => (r.takeWhile isDigitCh, (r.takeWhile isDigitCh).length + 1)
      | _ => ([], 0)
    if ip.isEmpty && fp.isEmpty then .nan
    else .num (decimalVal neg ip fp (parseExpPart (afterInt.drop afterFrac)))

/-- The leading `^(\d{4}-\d{2}-\d{2})` capture of `normalizeArchiveDate`:
the first ten characters when they form the digit pattern `YYYY-MM-DD`. -/
def leadingDateCapture : List Char → Option (List Char)
  | y1 :: y2 :: y3 :: y4 :: '-' :: m1 :: m2 :: '-' :: d1 :: d2 :: _ =>
    if isDigitCh y1 && isDigitCh y2 && isDigitCh y3 && isDigitCh y4 &&
       isDigitCh m1 && isDigitCh m2 && isDigitCh d1 && isDigitCh d2 then
      some [y1, y2, y3, y4, '-', m1, m2, '-', d1, d2]
    else none
  | _ => none

/-- Whether a string is exactly ten characters in the digit pattern
`YYYY-MM-DD` (the shape, not calendar validity). -/
def isDateShaped (s : String) : Bool :=
  match s.data with
  | [y1, y2, y3, y4, '-', m1, m2, '-', d1, d2] =>
    isDigitCh y1 && isDigitCh y2 && isDigitCh y3 && isDigitCh y4 &&
    isDigitCh m1 && isDigitCh m2 && isDigitCh d1 && isDigitCh d2
  | _ => false

/-- Whether a string is exactly ten characters in the expanded-year
fragment shape `±YYYYYY-MM` (a sign, six digits, a dash, two digits) —
the `toISOString().slice(0, 10)` of a date whose year lies outside
`0`–`9999`. -/
def isExpandedSlice (s : String) : Bool :=
  match s.data with
  | [sg, y1, y2, y3, y4, y5, y6, '-', m1, m2] =>
    (sg == '+' || sg == '-') && isDigitCh y1 && isDigitCh y2 && isDigitCh y3 &&
      isDigitCh y4 && isDigitCh y5 && isDigitCh y6 && isDigitCh m1 && isDigitCh m2
  | _ => false

/-- Proleptic-Gregorian leap year on astronomical year numbering, as in
ECMA-262's `DaysInYear`. -/
def isLeapYear (y : Int) : Bool :=
  (Int.emod y 4 == 0 && Int.emod y 100 != 0) || Int.emod y 400 == 0

/-- Length of a month in the proleptic Gregorian calendar. -/
def daysInMonth (y : Int) (m : Nat) : Nat :=
  if m == 2 then (if isLeapYear y then 29 else 28)
  else if m == 4 || m == 6 || m == 9 || m == 11 then 30
  else 31

/-- Days from the Unix epoch to the given proleptic-Gregorian calendar
date (the standard civil-from-days inverse, with floor division); ECMA's
`MakeDay`.  A date-only string is valid only when this count stays within
the time-value range `±8.64e15` ms, i.e. `±100000000` days. -/
def daysFromCivil (y : Int) (m d : Nat) : Int :=
  let yAdj : Int := if m ≤ 2 then y - 1 else y
  let era : Int := Int.fdiv yAdj 400
  let yoe : Int := yAdj - era * 400
  let mp : Nat := (m + 9) % 12
  let doy : Int := ((153 * mp + 2) / 5 : Nat) + (d : Int) - 1
  let doe : Int := yoe * 365 + Int.fdiv yoe 4 - Int.fdiv yoe 100 + doy
  era * 146097 + doe - 719468

/-- The astronomical year denoted by an expanded-year sign and six-digit
magnitude. -/
def signedYear (sg : Char) (yn : Nat) : Int :=
  if sg = '-' then -(yn : Int) else (yn : Int)

/-- Validity of an expanded-year date-only string, per ECMA-262: month
`01`–`12`, a real calendar day, and a time value within range. -/
def expandedDateValid (y : Int) (mn dn : Nat) : Prop :=
  1 ≤ mn ∧ mn ≤ 12 ∧ 1 ≤ dn ∧ dn ≤ daysInMonth y mn ∧
    (daysFromCivil y mn dn).natAbs ≤ 100000000

instance (y : Int) (mn dn : Nat) : Decidable (expandedDateValid y mn dn) := by
  unfold expandedDateValid; infer_instance

/-- The slice computation proper (digits already validated). -/
def expandedDateSliceVal (sg y1 y2 y3 y4 y5 y6 m1 m2 d1 d2 : Char) : Option (List Char) :=
  if sg = '-' ∧ digitsToNat [y1, y2, y3, y4, y5, y6] = 0 then none
  else if expandedDateValid (signedYear sg (digitsToNat [y1, y2, y3, y4, y5, y6]))
      (digitsToNat [m1, m2]) (digitsToNat [d1, d2]) then
    if sg = '+' ∧ y1 = '0' ∧ y2 = '0' then
      some [y3, y4, y5, y6, '-', m1, m2, '-', d1, d2]
    else
      some [sg, y1, y2, y3, y4, y5, y6, '-', m1, m2]
  else none

/-- The `toISOString().slice(0, 10)` of an expanded-year date-only string
`±YYYYYY[-MM[-DD]]` (digits already split out; omitted month/day arrive as
`'0'`/`'1'`).  Validity follows ECMA-262: all-digit fields, `-000000`
excluded, and `expandedDateValid`.  A valid year `0`–`9999` (a `+` sign
and two leading zero digits) serializes in the simple four-digit form, so
the slice is a full `YYYY-MM-DD`; any other valid year serializes
expanded, so the slice is the ten-character fragment `±YYYYYY-MM` — the
day is cut off. -/
def expandedDateSlice (sg y1 y2 y3 y4 y5 y6 m1 m2 d1 d2 : Char) : Option (List Char) :=
  if isDigitCh y1 && isDigitCh y2 && isDigitCh y3 && isDigitCh y4 &&
     isDigitCh y5 && isDigitCh y6 && isDigitCh m1 && isDigitCh m2 &&
     isDigitCh d1 && isDigitCh d2 then
    expandedDateSliceVal sg y1 y2 y3 y4 y5 y6 m1 m2 d1 d2
  else none

/-- `Date.parse` followed by `toISOString().slice(0, 10)`, as reachable
from `normalizeArchiveDate`.  Strings that start with `\d{4}-\d{2}-\d{2}`
are consumed by the regex branch before `Date.parse` is ever called, so
the ECMA-262 Date Time String Format date-only forms that can reach it are
`YYYY`, `YYYY-MM` (month `01`–`12`, midnight UTC of the first day, so the
slice pads with `-01`) and the expanded-year forms `±YYYYYY[-MM[-DD]]`,
handled by `expandedDateSlice`.  Date-time strings and
implementation-specific heuristic formats are modelled as `NaN`; when a
real engine does parse one of those, the result is still a
`toISOString` slice in one of the two shapes below (`YYYY-MM-DD` for years
`0`–`9999`, `±YYYYYY-MM` otherwise), so the disjunction proved about
normalization holds for the program on such inputs as well. -/
def jsDateParseSlice (l : List Char) : Option (List Char) :=
  match l with
  | [y1, y2, y3, y4] =>
    if isDigitCh y1 && isDigitCh y2 && isDigitCh y3 && isDigitCh y4 then
      some [y1, y2, y3, y4, '-', '0', '1', '-', '0', '1']
    else none
  | [y1, y2, y3, y4, '-', m1, m2] =>
    if isDigitCh y1 && isDigitCh y2 && isDigitCh y3 && isDigitCh y4 &&
       isDigitCh m1 && isDigitCh m2 &&
       1 ≤ digitsToNat [m1, m2] && digitsToNat [m1, m2] ≤ 12 then
      some [y1, y2, y3, y4, '-', m1, m2, '-', '0', '1']
    else none
  | [sg, y1, y2, y3, y4, y5, y6] =>
    if sg = '+' ∨ sg = '-' then
      expandedDateSlice sg y1 y2 y3 y4 y5 y6 '0' '1' '0' '1'
    else none
  | [sg, y1, y2, y3, y4, y5, y6, '-', m1, m2] =>
    if sg = '+' ∨ sg = '-' then
      expandedDateSlice sg y1 y2 y3 y4 y5 y6 m1 m2 '0' '1'
    else none
  | [sg, y1, y2, y3, y4, y5, y6, '-', m1, m2, '-', d1, d2] =>
    if sg = '+' ∨ sg = '-' then
      expandedDateSlice sg y1 y2 y3 y4 y5 y6 m1 m2 d1 d2
    else none
  | _ => none

/-- `GratefulDeadArchiveClient.normalizeArchiveDate`: absent or empty raw
date gives the sentinel; otherwise the trimmed string's leading
`YYYY-MM-DD` capture when present; otherwise the `Date.parse` route; and
when that is `NaN`, the trimmed string itself. -/
def normalizeArchiveDate (rawDate : Option String) : String :=
  match rawDate with
  | none => "Unknown date"
  | some raw =>
    if raw = "" then "Unknown date"
    else
      let trimmed := jsTrimList raw.data
      match leadingDateCapture trimmed with
      | some cap => String.mk cap
      | none =>
        match jsDateParseSlice trimmed with
        | some slice => String.mk slice
        | none => String.mk trimmed

example : normalizeArchiveDate (some "1977-05-08T00:00:00Z") = "1977-05-08" := by decide
example : normalizeArchiveDate (some " 1977-05-08 ") = "1977-05-08" := by decide
example : normalizeArchiveDate none = "Unknown date" := by decide
example : normalizeArchiveDate (some "hello world") = "hello world" := by decide
example : normalizeArchiveDate (some "1977-05") = "1977-05-01" := by decide
example : normalizeArchiveDate (some "1966-12-05-08") = "1966-12-05" := by decide
example : normalizeArchiveDate (some "+020000-01-01") = "+020000-01" := by decide
example : normalizeArchiveDate (some "+001977-05-08") = "1977-05-08" := by decide
example : normalizeArchiveDate (some "-000001-12-31") = "-000001-12" := by decide
example : normalizeArchiveDate (some "+275760-09-13") = "+275760-09" := by decide
example : normalizeArchiveDate (some "+275760-09-14") = "+275760-09-14" := by decide
example : normalizeArchiveDate (some "-000000-01-01") = "-000000-01-01" := by decide
example : jsParseFloat "4.9" = .num (mkRat 49 10) := by decide
example : jsParseFloat "abc" = .nan := by decide
example : jsParseFloat "0" = .num 0 := by decide
example : jsParseInt "abc" = .nan := by decide
example : jsParseInt "17" = .num 17 := by decide

/-! ### Recording-type inference (`detectRecordingType`) -/

/-- The tag inferred for a recording's provenance. -/
inductive RecordingType where
  | SBD : RecordingType
  | AUD : RecordingType
  | MTX : RecordingType
deriving DecidableEq

/-- A word character for the regex class `\w` and the boundary `\b`:
`[A-Za-z0-9_]`. -/
def isWordChar (c : Char) : Bool := c.isAlphanum || c = '_'

/-- Whether the character before a match position is a boundary
(start of string or a non-word character). -/
def boundaryBefore : Option Char → Bool
  | none => true
  | some c => !isWordChar c

/-- Whether the position after a match is a boundary
(end of string or a non-word character). -/
def boundaryAfter : List Char → Bool
  | [] => true
  | c :: _ => !isWordChar c

/-- Scan for an occurrence of `needle` delimited by word boundaries,
carrying the previous character. -/
def wordOccurAux (needle : List Char) : Option Char → List Char → Bool
  | _, [] => false
  | prev, c :: rest =>
    (boundaryBefore prev && needle.isPrefixOf (c :: rest) &&
      boundaryAfter ((c :: rest).drop needle.length))
    || wordOccurAux needle (some c) rest

/-- The regex test `/\bw\b/.test(s)` for a word `w` made of word
characters. -/
def regexWordTest (needle : List Char) (hay : List Char) : Bool :=
  wordOccurAux needle none hay

/-- `String.prototype.toLowerCase`, restricted to the ASCII range the
markers live in (`Char.toLower` lowercases exactly `A`–`Z`). -/
def lowerStr (s : String) : String :=
  String.mk (s.data.map Char.toLower)

/-- The MTX test applied to one lowercased segment:
`/\bmtx\b/.test(segment) || segment.includes("matrix")`. -/
def mtxMarker (seg : String) : Bool :=
  regexWordTest "mtx".data seg.data || jsIncludes "matrix" seg

/-- The SBD test: `/\bsbd\b/.test(segment) || segment.includes("soundboard")`. -/
def sbdMarker (seg : String) : Bool :=
  regexWordTest "sbd".data seg.data || jsIncludes "soundboard" seg

/-- The AUD test: `/\baud\b/.test(segment) || segment.includes("audience")`. -/
def audMarker (seg : String) : Bool :=
  regexWordTest "aud".data seg.data || jsIncludes "audience" seg

/-- The segment list of `detectRecordingType`:
`[identifier, title, source]` with absent/blank entries filtered out
(`Boolean(segment && segment.trim())`) and the rest lowercased. -/
def detectSegments (identifier : String) (title source : Option String) : List String :=
  ((([some identifier, title, source].filterMap id).filter
    (fun s => s != "" && !(jsTrimList s.data).isEmpty)).map lowerStr)

/-- `GratefulDeadArchiveClient.detectRecordingType`: MTX markers first,
then SBD, then AUD; no marker (or no usable segment) leaves the tag
absent. -/
def detectRecordingType (identifier : String) (title source : Option String) :
    Option RecordingType :=
  let segments := detectSegments identifier title source
  if segments.isEmpty then none
  else if segments.any mtxMarker then some .MTX
  else if segments.any sbdMarker then some .SBD
  else if segments.any audMarker then some .AUD
  else none

example : detectRecordingType "gd1977-05-08.mtx.sbd.miller" none none = some .MTX := by decide
example : detectRecordingType "x" (some "Soundboard Reel") none = some .SBD := by decide
example : detectRecordingType "gd77" (some "Barton Hall") none = none := by decide
example : detectRecordingType "gd.aud.flac" none none = some .AUD := by decide

/-! ### Mapping raw docs to `ArchiveShow` (`getShowsForDate`) -/

/-- A raw doc from the Archive search response.  The upstream numeric
fields may be numbers or strings; the code immediately applies
`String(...)`, so they are modelled by the resulting string. -/
structure ArchiveDoc where
  identifier : String
  title : Option String
  date : Option String
  venue : Option String
  coverage : Option String
  source : Option String
  avg_rating : Option String
  num_reviews : Option String
deriving DecidableEq

/-- The normalized recording data model (`ArchiveShow` in the source). -/
structure ArchiveShow where
  identifier : String
  title : String
  date : String
  venue : Option String
  coverage : Option String
  source : Option String
  avgRating : Option JsNum
  numRatings : Option JsNum
  recordingType : Option RecordingType
  url : String
deriving DecidableEq

/-- Uppercase hex digit of a nibble. -/
def hexDigit (n : Nat) : Char :=
  if n < 10 then Char.ofNat (48 + n) else Char.ofNat (55 + n)

/-- Characters `encodeURIComponent` leaves unescaped. -/
def isUnescapedURIChar (c : Char) : Bool :=
  c.isAlphanum || c = '-' || c = '_' || c = '.' || c = '!' ||
    c = '~' || c = '*' || c = '\'' || c = '(' || c = ')'

/-- `encodeURIComponent` for the ASCII range (identifiers are ASCII;
multi-byte UTF-8 escapes are not modelled). -/
def encodeURIComponent (s : String) : String :=
  String.mk (s.data.foldr
    (fun c acc =>
      if isUnescapedURIChar c then c :: acc
      else '%' :: hexDigit (c.toNat / 16 % 16) :: hexDigit (c.toNat % 16) :: acc)
    [])

/-- `GratefulDeadArchiveClient.buildDetailsUrl`. -/
def buildDetailsUrl (identifier : String) : String :=
  "https://archive.org/details/" ++ encodeURIComponent identifier

/-- The JS expression `x || undefined` on a number. -/
def jsNumOrUndef (n : JsNum) : Option JsNum :=
  if n.truthy then some n else none

/-- The per-doc mapping body of `getShowsForDate`: title falls back to the
identifier, the date is normalized, `avg_rating` goes through
`parseFloat(...) || undefined`, `num_reviews` through `parseInt(..., 10)`
(kept even when `NaN`), and the recording type is inferred. -/
def mapDoc (doc : ArchiveDoc) : ArchiveShow :=
  let identifier := doc.identifier
  let title := doc.title.getD identifier
  { identifier := identifier
    title := title
    date := normalizeArchiveDate doc.date
    venue := doc.venue
    coverage := doc.coverage
    source := doc.source
    avgRating :=
      match doc.avg_rating with
      | none => none
      | some s => jsNumOrUndef (jsParseFloat s)
    numRatings :=
      match doc.num_reviews with
      | none => none
      | some s => some (jsParseInt s)
    recordingType := detectRecordingType identifier (some title) doc.source
    url := buildDetailsUrl identifier }

/-- The local date re-filter of `getShowsForDate`:
`(doc.date ?? "").includes("-" + month + "-" + day)`. -/
def docMatchesDay (month day : String) (doc : ArchiveDoc) : Bool :=
  jsIncludes ("-" ++ month ++ "-" ++ day) (doc.date.getD "")

/-- The filter-then-map pipeline at the end of `getShowsForDate`. -/
def processDocs (month day : String) (docs : List ArchiveDoc) : List ArchiveShow :=
  (docs.filter (docMatchesDay month day)).map mapDoc

/-- Body of an Archive search response: the `docs` array inside the
`response` wrapper (`docs ?? []` at the use site). -/
structure ArchiveResponseBody where
  docs : Option (List ArchiveDoc)
deriving DecidableEq

/-- A decoded JSON payload: an optional top-level `error` field and an
optional `response` wrapper. -/
structure ArchivePayload where
  error : Option String
  response : Option ArchiveResponseBody
deriving DecidableEq

/-- What the injected transport produced: a thrown transport failure, or
an HTTP response with its `ok` flag, status code and decoded body. -/
inductive FetchOutcome where
  | transportFailure : FetchOutcome
  | httpResponse (ok : Bool) (status : Nat) (payload : ArchivePayload) : FetchOutcome
deriving DecidableEq

/-- The errors `getShowsForDate` can throw. -/
inductive ApiError where
  | transport : ApiError
  | httpStatus (status : Nat) : ApiError
  | apiError (msg : String) : ApiError
  | missingResults : ApiError
deriving DecidableEq

/-- The post-error-check tail of `getShowsForDate`: reject a missing
`response` wrapper, then filter and map the docs. -/
def getShowsTail (month day : String) (payload : ArchivePayload) :
    Except ApiError (List ArchiveShow) :=
  match payload.response with
  | none => .error .missingResults
  | some body => .ok (processDocs month day (body.docs.getD []))

/-- `GratefulDeadArchiveClient.getShowsForDate`, with the target already
reduced to its zero-padded month/day strings (`toMonthDay`) and the
transport's outcome passed explicitly: a rejected fetch rethrows, a
non-`ok` status throws with the status code, a truthy `error` field
throws with its message, a missing `response` wrapper throws, and
otherwise the docs are locally re-filtered and mapped. -/
def getShowsForDate (month day : String) (fetched : FetchOutcome) :
    Except ApiError (List ArchiveShow) :=
  match fetched with
  | .transportFailure => .error .transport
  | .httpResponse ok status payload =>
    if !ok then .error (.httpStatus status)
    else
      match payload.error with
      | some msg =>
        if msg = "" then getShowsTail month day payload
        else .error (.apiError msg)
      | none => getShowsTail month day payload

/-! ### Grouping and in-group ranking (`groupShowsByDate`) -/

/-- The effective rating used by the in-group comparator:
`typeof r === "number" && Number.isFinite(r) ? r : Number.NEGATIVE_INFINITY`.
Absent and non-finite ratings collapse to `⊥`. -/
def effRating (s : ArchiveShow) : WithBot ℚ :=
  match s.avgRating with
  | some (.num q) => (q : WithBot ℚ)
  | _ => ⊥

/-- The in-group comparator of `groupShowsByDate`: descending by effective
rating (`ratingB - ratingA` when they differ), ties broken by
`a.title.localeCompare(b.title)`, modelled as code-point order on the
title's characters. -/
def showCmp (a b : ArchiveShow) : Ordering :=
  if effRating a = effRating b then
    if a.title = b.title then .eq
    else if a.title.data < b.title.data then .lt
    else .gt
  else if effRating b < effRating a then .lt
  else .gt

/-- `a` may precede `b` under the comparator (comparator result is not
positive); the order a conforming stable sort realizes. -/
def showLE (a b : ArchiveShow) : Prop := showCmp a b ≠ Ordering.gt

instance : DecidableRel showLE := fun a b => by unfold showLE; infer_instance

/-- The in-group sort `groupedShows.sort(comparator)`, modelled as a
stable insertion sort. -/
def sortShows (l : List ArchiveShow) : List ArchiveShow :=
  List.insertionSort showLE l

/-- One date group of the workflow's grouped structure. -/
structure DateGroup where
  date : String
  shows : List ArchiveShow
deriving DecidableEq

/-- One `Map.set`/`push` step of the grouping loop: append to the existing
entry of the show's date, or append a fresh entry at the end (JS `Map`
preserves insertion order). -/
def insertIntoGroups (groups : List (String × List ArchiveShow)) (s : ArchiveShow) :
    List (String × List ArchiveShow) :=
  match groups with
  | [] => [(s.date, [s])]
  | g :: rest =>
    if g.1 = s.date then (g.1, g.2 ++ [s]) :: rest
    else g :: insertIntoGroups rest s

/-- The grouping loop of `groupShowsByDate`. -/
def buildGroups (shows : List ArchiveShow) : List (String × List ArchiveShow) :=
  shows.foldl insertIntoGroups []

/-- Ascending date order of the final group sort
(`a.date.localeCompare(b.date)`), modelled as code-point order. -/
def groupLE (a b : DateGroup) : Prop := a.date.data ≤ b.date.data

instance : DecidableRel groupLE := fun a b => by unfold groupLE; infer_instance

/-- `groupShowsByDate`: group by exact date string, rank each group with
the comparator, and sort the groups ascending by date. -/
def groupShowsByDate (shows : List ArchiveShow) : List DateGroup :=
  List.insertionSort groupLE
    ((buildGroups shows).map (fun g => ⟨g.1, sortShows g.2⟩))

/-! ### The selection workflow (`runShowWorkflow`) -/

/-- How a run of the workflow ends (after a successful fetch): no shows to
offer, a show handed to `openShow`, or a user cancellation. -/
inductive WorkflowResult where
  | noShows : WorkflowResult
  | opened (s : ArchiveShow) : WorkflowResult
  | cancelled : WorkflowResult
deriving DecidableEq

/-- The interactive prompts, abstracted: what date the user picks from the
group list (`none` for Cancel) and what recording identifier they pick
from a group (`none` for Cancel). -/
structure PromptAnswers where
  dateChoice : List DateGroup → Option String
  showChoice : DateGroup → Option String

/-- `groups.find((group) => group.date === selectedDate) ?? null`. -/
def findGroup (groups : List DateGroup) (d : String) : Option DateGroup :=
  groups.find? (fun g => g.date = d)

/-- `group.shows.find((candidate) => candidate.identifier === selectedId)`. -/
def findShow (g : DateGroup) (sid : String) : Option ArchiveShow :=
  g.shows.find? (fun s => s.identifier = sid)

/-- `runShowWorkflow` after a successful fetch: report the empty result;
otherwise in auto mode, or when stdin or stdout is not a TTY, open
`shows[0]`; otherwise run the two prompts over the grouped structure,
with cancellation (or a failed lookup) ending the run with no selection. -/
def runShowWorkflow (auto stdinTTY stdoutTTY : Bool) (shows : List ArchiveShow)
    (answers : PromptAnswers) : WorkflowResult :=
  let groupedShows := groupShowsByDate shows
  match shows with
  | [] => .noShows
  | first :: _ =>
    if auto || !stdinTTY || !stdoutTTY then .opened first
    else
      match answers.dateChoice groupedShows with
      | none => .cancelled
      | some d =>
        match findGroup groupedShows d with
        | none => .cancelled
        | some g =>
          match answers.showChoice g with
          | none => .cancelled
          | some sid =>
            match findShow g sid with
            | none => .cancelled
            | some s => .opened s

/-- How many times a finished run handed a show to the browser-open
step. -/
def browserOpenCount : WorkflowResult → Nat
  | .opened _ => 1
  | _ => 0

/-! ### Sample data shared by the concrete witnesses -/

/-- A rated soundboard recording used by the witnesses. -/
def wShowA : ArchiveShow :=
  { identifier := "gd1977-05-08.sbd.miller"
    title := "Barton Hall"
    date := "1977-05-08"
    venue := none
    coverage := none
    source := none
    avgRating := some (.num (mkRat 19 2))
    numRatings := some (.num 12)
    recordingType := some .SBD
    url := "https://archive.org/details/gd1977-05-08.sbd.miller" }

/-- A lower-rated recording on the same date. -/
def wShowB : ArchiveShow :=
  { identifier := "gd1977-05-08.aud"
    title := "Cornell"
    date := "1977-05-08"
    venue := none
    coverage := none
    source := none
    avgRating := some (.num 9)
    numRatings := some (.num 12)
    recordingType := some .AUD
    url := "https://archive.org/details/gd1977-05-08.aud" }

/-- An unrated recording on a later date. -/
def wShowC : ArchiveShow :=
  { identifier := "gd1990-03-29"
    title := "Nassau"
    date := "1990-03-29"
    venue := none
    coverage := none
    source := none
    avgRating := none
    numRatings := none
    recordingType := none
    url := "https://archive.org/details/gd1990-03-29" }

/-- Prompt answers that cancel at the first prompt. -/
def wCancelAnswers : PromptAnswers := ⟨fun _ => none, fun _ => none⟩

/-- A doc whose `num_reviews` does not parse as a number. -/
def wNanReviewsDoc : ArchiveDoc :=
  { identifier := "gd-x", title := none, date := some "1977-05-08",
    venue := none, coverage := none, source := none,
    avg_rating := none, num_reviews := some "abc" }

/-- A doc whose raw date contains `-05-08` away from the calendar-day
position. -/
def wStrayDateDoc : ArchiveDoc :=
  { identifier := "gd-y", title := none, date := some "1966-12-05-08",
    venue := none, coverage := none, source := none,
    avg_rating := none, num_reviews := none }

/-! ### Claim theorems -/

/-- C6: for a non-empty fetch result, auto mode selects exactly element 0
of the raw (ungrouped, unranked) fetch list, and a run with a
non-interactive stdin or stdout selects the same recording as an auto run
on the identical fetch result. -/
theorem autoModeSelectsRawHead :
    (∀ (stdinTTY stdoutTTY : Bool) (first : ArchiveShow) (rest : List ArchiveShow)
        (answers : PromptAnswers),
      runShowWorkflow true stdinTTY stdoutTTY (first :: rest) answers = .opened first) ∧
    (∀ (auto stdinTTY stdoutTTY : Bool) (shows : List ArchiveShow)
        (answers : PromptAnswers),
      stdinTTY = false ∨ stdoutTTY = false →
      runShowWorkflow auto stdinTTY stdoutTTY shows answers =
        runShowWorkflow true stdinTTY stdoutTTY shows answers) := by
  constructor
  · intro stdinTTY stdoutTTY first rest answers
    simp [runShowWorkflow]
  · intro auto stdinTTY stdoutTTY shows answers h
    cases shows with
    | nil => rfl
    | cons first rest =>
      rcases h with h | h <;> subst h <;> simp [runShowWorkflow]

/-- Witness for C6 at a concrete one-element fetch result. -/
theorem autoModeSelectsRawHead_witness :
    runShowWorkflow true true true [wShowA] wCancelAnswers = .opened wShowA ∧
    runShowWorkflow false false true [wShowA] wCancelAnswers =
      runShowWorkflow true false true [wShowA] wCancelAnswers :=
  ⟨autoModeSelectsRawHead.1 true true wShowA [] wCancelAnswers,
   autoModeSelectsRawHead.2 false false true [wShowA] wCancelAnswers (Or.inl rfl)⟩

/-- C8: an empty fetch result ends the workflow with the reported
zero-result outcome, no selection, and zero browser-open attempts. -/
theorem emptyFetchReportsAndStops :
    ∀ (auto stdinTTY stdoutTTY : Bool) (answers : PromptAnswers),
      runShowWorkflow auto stdinTTY stdoutTTY [] answers = .noShows ∧
      browserOpenCount (runShowWorkflow auto stdinTTY stdoutTTY [] answers) = 0 :=
  fun _ _ _ _ => ⟨rfl, rfl⟩

/-- C7: a transport failure, a non-success HTTP status, a truthy error
field, or a missing results wrapper each surface as the corresponding
error, and an erroring fetch never also produces a recording list. -/
theorem fetchFailuresAreFatal :
    ∀ (month day : String),
      (getShowsForDate month day .transportFailure = .error .transport) ∧
      (∀ (status : Nat) (payload : ArchivePayload),
        getShowsForDate month day (.httpResponse false status payload) =
          .error (.httpStatus status)) ∧
      (∀ (status : Nat) (payload : ArchivePayload) (msg : String),
        payload.error = some msg → msg ≠ "" →
        getShowsForDate month day (.httpResponse true status payload) =
          .error (.apiError msg)) ∧
      (∀ (status : Nat) (payload : ArchivePayload),
        (payload.error = none ∨ payload.error = some "") →
        payload.response = none →
        getShowsForDate month day (.httpResponse true status payload) =
          .error .missingResults) ∧
      (∀ (fetched : FetchOutcome) (e : ApiError) (shows : List ArchiveShow),
        getShowsForDate month day fetched = .error e →
        getShowsForDate month day fetched ≠ .ok shows) := by
  intro month day
  refine ⟨rfl, fun status payload => rfl, ?_, ?_, ?_⟩
  · intro status payload msg hmsg hne
    simp [getShowsForDate, hmsg, hne]
  · intro status payload herr hresp
    rcases herr with h | h <;>
      simp [getShowsForDate, h, getShowsTail, hresp]
  · intro fetched e shows he hok
    rw [he] at hok
    exact Except.noConfusion hok

/-- Witness for C7 at concrete fetch outcomes. -/
theorem fetchFailuresAreFatal_witness :
    getShowsForDate "05" "08" .transportFailure = .error .transport ∧
    getShowsForDate "05" "08" (.httpResponse false 503 ⟨none, none⟩) =
      .error (.httpStatus 503) ∧
    getShowsForDate "05" "08" (.httpResponse true 200 ⟨some "boom", none⟩) =
      .error (.apiError "boom") ∧
    getShowsForDate "05" "08" (.httpResponse true 200 ⟨none, none⟩) =
      .error .missingResults ∧
    getShowsForDate "05" "08" .transportFailure ≠ .ok [] :=
  ⟨(fetchFailuresAreFatal "05" "08").1,
   (fetchFailuresAreFatal "05" "08").2.1 503 ⟨none, none⟩,
   (fetchFailuresAreFatal "05" "08").2.2.1 200 ⟨some "boom", none⟩ "boom" rfl (by decide),
   (fetchFailuresAreFatal "05" "08").2.2.2.1 200 ⟨none, none⟩ (Or.inl rfl) rfl,
   (fetchFailuresAreFatal "05" "08").2.2.2.2 .transportFailure .transport []
     (fetchFailuresAreFatal "05" "08").1⟩

/-- C10: an `avg_rating` value that parses to the number `0` is coerced to
an absent `avgRating` by the `|| undefined` truthiness check. -/
theorem zeroRatingCoercedToAbsent :
    ∀ (doc : ArchiveDoc) (s : String),
      doc.avg_rating = some s → jsParseFloat s = .num 0 →
      (mapDoc doc).avgRating = none := by
  intro doc s hfield hparse
  simp [mapDoc, hfield, hparse, jsNumOrUndef, JsNum.truthy]

/-- Witness for C10: the literal string `"0"`. -/
theorem zeroRatingCoercedToAbsent_witness :
    (mapDoc { wNanReviewsDoc with avg_rating := some "0" }).avgRating = none :=
  zeroRatingCoercedToAbsent _ "0" rfl (by decide)

/-- C9 counterexample: a present but unparseable `num_reviews` string
gives `numRatings = NaN` — a present not-a-number value, not an absent
field, because `parseInt`'s result is stored without the `|| undefined`
coercion applied to `avg_rating`. -/
theorem unparseableReviewsNotAbsent :
    (mapDoc wNanReviewsDoc).numRatings = some JsNum.nan ∧
    (mapDoc wNanReviewsDoc).numRatings ≠ none := by
  constructor <;> decide

/-- C9 amended: a present but unparseable `avg_rating` makes `avgRating`
absent; a present but unparseable `num_reviews` makes `numRatings` the
`NaN` number — present, but neither zero nor any other numeric value. -/
theorem lenientNumericFieldParsing :
    ∀ (doc : ArchiveDoc) (s : String),
      (doc.avg_rating = some s → jsParseFloat s = .nan →
        (mapDoc doc).avgRating = none) ∧
      (doc.num_reviews = some s → jsParseInt s = .nan →
        (mapDoc doc).numRatings = some .nan ∧
        ∀ q : ℚ, (mapDoc doc).numRatings ≠ some (.num q)) := by
  intro doc s
  constructor
  · intro hfield hparse
    simp [mapDoc, hfield, hparse, jsNumOrUndef, JsNum.truthy]
  · intro hfield hparse
    refine ⟨by simp [mapDoc, hfield, hparse], ?_⟩
    intro q
    simp [mapDoc, hfield, hparse]

/-- Witness for the amended C9 at the unparseable string `"abc"`. -/
theorem lenientNumericFieldParsing_witness :
    ((mapDoc { wNanReviewsDoc with avg_rating := some "abc" }).avgRating = none) ∧
    ((mapDoc wNanReviewsDoc).numRatings = some .nan ∧
      ∀ q : ℚ, (mapDoc wNanReviewsDoc).numRatings ≠ some (.num q)) :=
  ⟨(lenientNumericFieldParsing { wNanReviewsDoc with avg_rating := some "abc" } "abc").1
      rfl (by decide),
   (lenientNumericFieldParsing wNanReviewsDoc "abc").2 rfl (by decide)⟩

/-- C5: recording-type inference scans the lowercased non-blank segments
of identifier, title and source; MTX markers (word `mtx` or substring
`matrix`) win over SBD markers (word `sbd` or substring `soundboard`),
which win over AUD markers (word `aud` or substring `audience`); with no
marker the tag is absent. -/
theorem recordingTypePrecedence :
    ∀ (identifier : String) (title source : Option String),
      ((detectSegments identifier title source).any mtxMarker = true →
        detectRecordingType identifier title source = some .MTX) ∧
      ((detectSegments identifier title source).any mtxMarker = false →
        (detectSegments identifier title source).any sbdMarker = true →
        detectRecordingType identifier title source = some .SBD) ∧
      ((detectSegments identifier title source).any mtxMarker = false →
        (detectSegments identifier title source).any sbdMarker = false →
        (detectSegments identifier title source).any audMarker = true →
        detectRecordingType identifier title source = some .AUD) ∧
      ((detectSegments identifier title source).any mtxMarker = false →
        (detectSegments identifier title source).any sbdMarker = false →
        (detectSegments identifier title source).any audMarker = false →
        detectRecordingType identifier title source = none) := by
  intro identifier title source
  refine ⟨?_, ?_, ?_, ?_⟩ <;> intro h1
  · have hne : (detectSegments identifier title source).isEmpty = false := by
      cases hs : detectSegments identifier title source with
      | nil => rw [hs] at h1; simp [List.any] at h1
      | cons a l => simp [List.isEmpty]
    simp [detectRecordingType, hne, h1]
  · intro h2
    have hne : (detectSegments identifier title source).isEmpty = false := by
      cases hs : detectSegments identifier title source with
      | nil => rw [hs] at h2; simp [List.any] at h2
      | cons a l => simp [List.isEmpty]
    simp [detectRecordingType, hne, h1, h2]
  · intro h2 h3
    have hne : (detectSegments identifier title source).isEmpty = false := by
      cases hs : detectSegments identifier title source with
      | nil => rw [hs] at h3; simp [List.any] at h3
      | cons a l => simp [List.isEmpty]
    simp [detectRecordingType, hne, h1, h2, h3]
  · intro h2 h3
    by_cases hne : (detectSegments identifier title source).isEmpty <;>
      simp [detectRecordingType, hne, h1, h2, h3]

/-- Witness for C5: an identifier carrying both `mtx` and `sbd` markers is
tagged MTX; a title with only `soundboard` is tagged SBD; a plain
identifier and title yield no tag. -/
theorem recordingTypePrecedence_witness :
    detectRecordingType "gd1977-05-08.mtx.sbd.flac" none none = some .MTX ∧
    detectRecordingType "gd-x" (some "Soundboard Reel") none = some .SBD ∧
    detectRecordingType "gd-x" (some "Barton Hall") none = none :=
  ⟨(recordingTypePrecedence "gd1977-05-08.mtx.sbd.flac" none none).1 (by decide),
   (recordingTypePrecedence "gd-x" (some "Soundboard Reel") none).2.1 (by decide) (by decide),
   (recordingTypePrecedence "gd-x" (some "Barton Hall") none).2.2.2 (by decide) (by decide)
     (by decide)⟩

/-- C1 counterexample: for target month `05` and day `08`, the doc with
raw date `1966-12-05-08` passes the local `includes("-05-08")` filter and
is returned, yet its normalized date `1966-12-05` does not end with the
`-05-08` suffix. -/
theorem dateSuffixClaimFails :
    mapDoc wStrayDateDoc ∈ processDocs "05" "08" [wStrayDateDoc] ∧
    getShowsForDate "05" "08"
        (.httpResponse true 200 ⟨none, some ⟨some [wStrayDateDoc]⟩⟩) =
      .ok (processDocs "05" "08" [wStrayDateDoc]) ∧
    (mapDoc wStrayDateDoc).date = "1966-12-05" ∧
    jsEndsWith "-05-08" (mapDoc wStrayDateDoc).date = false :=
  ⟨by decide, rfl, by decide, by decide⟩

/-- C1 amended: a successful fetch returns exactly the docs whose raw date
string contains the substring `-MM-DD` (anywhere, not necessarily as a
suffix of the normalized date), mapped to recordings; docs whose raw date
lacks the substring never contribute a recording. -/
theorem dateFilterKeepsContainedRaw :
    ∀ (month day : String) (docs : List ArchiveDoc),
      (∀ s ∈ processDocs month day docs, ∃ doc, doc ∈ docs ∧
        docMatchesDay month day doc = true ∧ s = mapDoc doc) ∧
      (∀ doc ∈ docs, docMatchesDay month day doc = true →
        mapDoc doc ∈ processDocs month day docs) ∧
      (∀ (status : Nat) (body : ArchiveResponseBody),
        getShowsForDate month day (.httpResponse true status ⟨none, some body⟩) =
          .ok (processDocs month day (body.docs.getD []))) := by
  intro month day docs
  refine ⟨?_, ?_, fun status body => rfl⟩
  · intro s hs
    rw [processDocs, List.mem_map] at hs
    obtain ⟨doc, hdoc, rfl⟩ := hs
    rw [List.mem_filter] at hdoc
    exact ⟨doc, hdoc.1, hdoc.2, rfl⟩
  · intro doc hdoc hmatch
    rw [processDocs, List.mem_map]
    exact ⟨doc, List.mem_filter.mpr ⟨hdoc, hmatch⟩, rfl⟩

/-- Witness for the amended C1 at a concrete matching doc. -/
theorem dateFilterKeepsContainedRaw_witness :
    mapDoc wNanReviewsDoc ∈ processDocs "05" "08" [wNanReviewsDoc] ∧
    getShowsForDate "05" "08"
        (.httpResponse true 200 ⟨none, some ⟨some [wNanReviewsDoc]⟩⟩) =
      .ok (processDocs "05" "08" [wNanReviewsDoc]) :=
  ⟨(dateFilterKeepsContainedRaw "05" "08" [wNanReviewsDoc]).2.1 wNanReviewsDoc
      (by decide) (by decide),
   (dateFilterKeepsContainedRaw "05" "08" [wNanReviewsDoc]).2.2 200 ⟨some [wNanReviewsDoc]⟩⟩

/-- A captured regex date prefix is ten characters in `YYYY-MM-DD`
shape. -/
theorem leadingDateCapture_shape {l cap : List Char}
    (h : leadingDateCapture l = some cap) : isDateShaped (String.mk cap) = true := by
  unfold leadingDateCapture at h
  split at h
  · split at h
    · rename_i hd
      injection h with h2
      subst h2
      exact hd
    · exact absurd h (by simp)
  · exact absurd h (by simp)

/-- A slice produced for an expanded-year date-only string is either a
full `YYYY-MM-DD` (year serialized in simple form) or the expanded
fragment `±YYYYYY-MM`. -/
theorem expandedDateSlice_shapes {sg y1 y2 y3 y4 y5 y6 m1 m2 d1 d2 : Char}
    {slice : List Char} (hsg : sg = '+' ∨ sg = '-')
    (h : expandedDateSlice sg y1 y2 y3 y4 y5 y6 m1 m2 d1 d2 = some slice) :
    isDateShaped (String.mk slice) = true ∨ isExpandedSlice (String.mk slice) = true := by
  unfold expandedDateSlice at h
  split at h
  · rename_i hd
    simp only [Bool.and_eq_true] at hd
    obtain ⟨⟨⟨⟨⟨⟨⟨⟨⟨h1, h2⟩, h3⟩, h4⟩, h5⟩, h6⟩, h7⟩, h8⟩, h9⟩, h10⟩ := hd
    unfold expandedDateSliceVal at h
    split at h
    · exact absurd h (by simp)
    · split at h
      · split at h
        · injection h with h2
          subst h2
          left
          show (isDigitCh y3 && isDigitCh y4 && isDigitCh y5 && isDigitCh y6 &&
            isDigitCh m1 && isDigitCh m2 && isDigitCh d1 && isDigitCh d2) = true
          simp [h3, h4, h5, h6, h7, h8, h9, h10]
        · injection h with h2
          subst h2
          right
          show ((sg == '+' || sg == '-') && isDigitCh y1 && isDigitCh y2 &&
            isDigitCh y3 && isDigitCh y4 && isDigitCh y5 && isDigitCh y6 &&
            isDigitCh m1 && isDigitCh m2) = true
          rcases hsg with hs | hs <;>
            simp [hs, h1, h2, h3, h4, h5, h6, h7, h8]
      · exact absurd h (by simp)
  · exact absurd h (by simp)

/-- A `Date.parse` slice is ten characters in either the `YYYY-MM-DD`
shape or the expanded-year fragment shape `±YYYYYY-MM`. -/
theorem jsDateParseSlice_shapes {l slice : List Char}
    (h : jsDateParseSlice l = some slice) :
    isDateShaped (String.mk slice) = true ∨ isExpandedSlice (String.mk slice) = true := by
  unfold jsDateParseSlice at h
  split at h
  · split at h
    · rename_i y1 y2 y3 y4 hd
      injection h with h2
      subst h2
      simp only [Bool.and_eq_true] at hd
      obtain ⟨⟨⟨h1, h2⟩, h3⟩, h4⟩ := hd
      left
      show (isDigitCh y1 && isDigitCh y2 && isDigitCh y3 && isDigitCh y4 &&
        isDigitCh '0' && isDigitCh '1' && isDigitCh '0' && isDigitCh '1') = true
      simp [h1, h2, h3, h4, show isDigitCh '0' = true from rfl,
        show isDigitCh '1' = true from rfl]
    · exact absurd h (by simp)
  · split at h
    · rename_i y1 y2 y3 y4 m1 m2 hd
      injection h with h2
      subst h2
      simp only [Bool.and_eq_true] at hd
      obtain ⟨⟨⟨⟨⟨⟨⟨h1, h2⟩, h3⟩, h4⟩, h5⟩, h6⟩, h7⟩, h8⟩ := hd
      left
      show (isDigitCh y1 && isDigitCh y2 && isDigitCh y3 && isDigitCh y4 &&
        isDigitCh m1 && isDigitCh m2 && isDigitCh '0' && isDigitCh '1') = true
      simp [h1, h2, h3, h4, h5, h6, show isDigitCh '0' = true from rfl,
        show isDigitCh '1' = true from rfl]
    · exact absurd h (by simp)
  · split at h
    · rename_i hsg
      exact expandedDateSlice_shapes hsg h
    · exact absurd h (by simp)
  · split at h
    · rename_i hsg
      exact expandedDateSlice_shapes hsg h
    · exact absurd h (by simp)
  · split at h
    · rename_i hsg
      exact expandedDateSlice_shapes hsg h
    · exact absurd h (by simp)
  · exact absurd h (by simp)

/-- C2 counterexample: the unparseable raw date `hello world` is returned
verbatim by normalization — neither a `YYYY-MM-DD` string nor the
`Unknown date` sentinel. -/
theorem unknownDateSentinelClaimFails :
    normalizeArchiveDate (some "hello world") = "hello world" ∧
    isDateShaped (normalizeArchiveDate (some "hello world")) = false ∧
    normalizeArchiveDate (some "hello world") ≠ "Unknown date" :=
  ⟨by decide, by decide, by decide⟩

/-- C2 amended: normalization yields the `Unknown date` sentinel whenever
the raw date is absent or the empty string; any other input yields either
a ten-character `YYYY-MM-DD`-shaped string, a ten-character expanded-year
fragment `±YYYYYY-MM` (the `toISOString` slice when `Date.parse` accepts
an expanded-year date whose year lies outside `0`–`9999`, e.g.
`"+020000-01-01" ↦ "+020000-01"`), or the trimmed raw input echoed back
unchanged — never the sentinel for a non-empty unparseable date (the
sentinel string can otherwise reappear only by echoing an input that is
literally `"Unknown date"`). -/
theorem normalizeDateShapeOrEcho :
    ∀ (raw : Option String),
      ((raw = none ∨ raw = some "") → normalizeArchiveDate raw = "Unknown date") ∧
      (∀ s, raw = some s → s ≠ "" →
        isDateShaped (normalizeArchiveDate raw) = true ∨
        isExpandedSlice (normalizeArchiveDate raw) = true ∨
        normalizeArchiveDate raw = jsTrim s) := by
  intro raw
  constructor
  · rintro (rfl | rfl) <;> rfl
  · rintro s rfl hne
    have hnorm : normalizeArchiveDate (some s) =
        (match leadingDateCapture (jsTrimList s.data) with
         | some cap => String.mk cap
         | none =>
           match jsDateParseSlice (jsTrimList s.data) with
           | some slice => String.mk slice
           | none => String.mk (jsTrimList s.data)) := by
      simp [normalizeArchiveDate, hne]
    cases hcap : leadingDateCapture (jsTrimList s.data) with
    | some cap =>
      rw [hnorm, hcap]
      exact Or.inl (leadingDateCapture_shape hcap)
    | none =>
      cases hds : jsDateParseSlice (jsTrimList s.data) with
      | some slice =>
        rw [hnorm, hcap, hds]
        rcases jsDateParseSlice_shapes hds with hsh | hsh
        · exact Or.inl hsh
        · exact Or.inr (Or.inl hsh)
      | none =>
        rw [hnorm, hcap, hds]
        exact Or.inr (Or.inr rfl)

/-- Witness for the amended C2: sentinel on empty input, shaped output on
a timestamped date, an expanded-year fragment on `+020000-01-01`, and an
echo on garbage. -/
theorem normalizeDateShapeOrEcho_witness :
    normalizeArchiveDate (some "") = "Unknown date" ∧
    (isDateShaped (normalizeArchiveDate (some "1977-05-08T00:00:00Z")) = true ∨
      isExpandedSlice (normalizeArchiveDate (some "1977-05-08T00:00:00Z")) = true ∨
      normalizeArchiveDate (some "1977-05-08T00:00:00Z") = jsTrim "1977-05-08T00:00:00Z") ∧
    (isDateShaped (normalizeArchiveDate (some "+020000-01-01")) = true ∨
      isExpandedSlice (normalizeArchiveDate (some "+020000-01-01")) = true ∨
      normalizeArchiveDate (some "+020000-01-01") = jsTrim "+020000-01-01") ∧
    (isDateShaped (normalizeArchiveDate (some "hello world")) = true ∨
      isExpandedSlice (normalizeArchiveDate (some "hello world")) = true ∨
      normalizeArchiveDate (some "hello world") = jsTrim "hello world") :=
  ⟨(normalizeDateShapeOrEcho (some "")).1 (Or.inr rfl),
   (normalizeDateShapeOrEcho (some "1977-05-08T00:00:00Z")).2 _ rfl (by decide),
   (normalizeDateShapeOrEcho (some "+020000-01-01")).2 _ rfl (by decide),
   (normalizeDateShapeOrEcho (some "hello world")).2 _ rfl (by decide)⟩

/-! ### Order facts about the in-group comparator -/

/-- The non-strict comparator order is exactly the lexicographic order on
(effective rating descending, title ascending). -/
theorem showLE_iff (a b : ArchiveShow) :
    showLE a b ↔ effRating b < effRating a ∨
      (effRating a = effRating b ∧ a.title.data ≤ b.title.data) := by
  unfold showLE showCmp
  split_ifs with h1 h2 h3 h4
  · simp [h1, h2]
  · simp [h1, le_of_lt h3]
  · have hne : a.title.data ≠ b.title.data := by
      intro hdata
      apply h2
      cases ta : a.title
      cases tb : b.title
      rw [ta, tb] at hdata
      simp only at hdata
      rw [hdata]
    constructor
    · intro hfalse
      exact absurd rfl hfalse
    · rintro (hlt | ⟨heq, hle⟩)
      · rw [h1] at hlt
        exact absurd hlt (lt_irrefl _)
      · rcases lt_or_eq_of_le hle with hlt | heq2
        · exact absurd hlt h3
        · exact absurd heq2 hne
  · simp [h4, h1]
  · have : ¬ effRating b < effRating a := h4
    simp [h1, this]

/-- Totality of the comparator order. -/
instance : IsTotal ArchiveShow showLE :=
  ⟨fun a b => by
    rw [showLE_iff, showLE_iff]
    rcases lt_trichotomy (effRating a) (effRating b) with h | h | h
    · exact Or.inr (Or.inl h)
    · rcases le_total a.title.data b.title.data with ht | ht
      · exact Or.inl (Or.inr ⟨h, ht⟩)
      · exact Or.inr (Or.inr ⟨h.symm, ht⟩)
    · exact Or.inl (Or.inl h)⟩

/-- Transitivity of the comparator order. -/
instance : IsTrans ArchiveShow showLE :=
  ⟨fun a b c hab hbc => by
    rw [showLE_iff] at hab hbc ⊢
    rcases hab with h1 | ⟨h1, t1⟩ <;> rcases hbc with h2 | ⟨h2, t2⟩
    · exact Or.inl (lt_trans h2 h1)
    · exact Or.inl (by rw [← h2]; exact h1)
    · exact Or.inl (by rw [h1]; exact h2)
    · exact Or.inr ⟨h1.trans h2, le_trans t1 t2⟩⟩

/-- Totality of the group date order. -/
instance : IsTotal DateGroup groupLE :=
  ⟨fun a b => le_total a.date.data b.date.data⟩

/-- Transitivity of the group date order. -/
instance : IsTrans DateGroup groupLE :=
  ⟨fun _ _ _ hab hbc => le_trans hab hbc⟩

/-! ### Permutation and membership facts about the grouping loop -/

/-- One grouping step appends the inserted show to the flattened members
(up to permutation). -/
theorem flat_insertIntoGroups (groups : List (String × List ArchiveShow)) (s : ArchiveShow) :
    ((insertIntoGroups groups s).flatMap (fun g => g.2)).Perm
      ((groups.flatMap (fun g => g.2)) ++ [s]) := by
  induction groups with
  | nil => simp [insertIntoGroups]
  | cons g rest ih =>
    by_cases h : g.1 = s.date
    · simp only [insertIntoGroups, if_pos h, List.flatMap_cons]
      rw [List.append_assoc, List.append_assoc]
      exact List.Perm.append_left _ List.perm_append_comm
    · simp only [insertIntoGroups, if_neg h, List.flatMap_cons]
      rw [List.append_assoc]
      exact List.Perm.append_left _ ih

/-- The grouping loop preserves the multiset of shows. -/
theorem flat_buildGroups (shows : List ArchiveShow) :
    ((buildGroups shows).flatMap (fun g => g.2)).Perm shows := by
  suffices h : ∀ (l : List ArchiveShow) (acc : List (String × List ArchiveShow)),
      ((l.foldl insertIntoGroups acc).flatMap (fun g => g.2)).Perm
        ((acc.flatMap (fun g => g.2)) ++ l) by
    simpa [buildGroups] using h shows []
  intro l
  induction l with
  | nil => intro acc; simp
  | cons s l ih =>
    intro acc
    have h1 := ih (insertIntoGroups acc s)
    have h2 := (flat_insertIntoGroups acc s).append_right l
    have h3 : ((acc.flatMap (fun g => g.2)) ++ [s]) ++ l =
        (acc.flatMap (fun g => g.2)) ++ (s :: l) := by simp
    rw [List.foldl_cons]
    exact h1.trans (h3 ▸ h2)

/-- Ranking the members of every group preserves the flattened
multiset. -/
theorem flat_sortGroups (gs : List (String × List ArchiveShow)) :
    ((gs.map (fun g => DateGroup.mk g.1 (sortShows g.2))).flatMap (fun g => g.shows)).Perm
      (gs.flatMap (fun g => g.2)) := by
  induction gs with
  | nil => simp
  | cons g rest ih =>
    simp only [List.map_cons, List.flatMap_cons]
    exact (List.perm_insertionSort showLE g.2).append ih

/-- The grouped structure holds exactly the input multiset of shows. -/
theorem flat_groupShowsByDate (shows : List ArchiveShow) :
    ((groupShowsByDate shows).flatMap (fun g => g.shows)).Perm shows := by
  have hperm : (groupShowsByDate shows).Perm
      ((buildGroups shows).map (fun g => DateGroup.mk g.1 (sortShows g.2))) :=
    List.perm_insertionSort groupLE _
  have h1 : ((groupShowsByDate shows).flatMap (fun g => g.shows)).Perm
      (((buildGroups shows).map (fun g => DateGroup.mk g.1 (sortShows g.2))).flatMap
        (fun g => g.shows)) := by
    rw [List.flatMap_def, List.flatMap_def]
    exact (hperm.map (fun g => g.shows)).flatten
  exact (h1.trans (flat_sortGroups _)).trans (flat_buildGroups shows)

/-- Every member of a grouping-loop entry carries the entry's key as its
date. -/
theorem dates_insertIntoGroups :
    ∀ (acc : List (String × List ArchiveShow)) (s : ArchiveShow),
      (∀ p ∈ acc, ∀ x ∈ p.2, x.date = p.1) →
      ∀ p ∈ insertIntoGroups acc s, ∀ x ∈ p.2, x.date = p.1 := by
  intro acc s hacc
  induction acc with
  | nil =>
    intro p hp x hx
    simp only [insertIntoGroups, List.mem_singleton] at hp
    subst hp
    simp only [List.mem_singleton] at hx
    subst hx
    rfl
  | cons g rest ih =>
    intro p hp x hx
    by_cases h : g.1 = s.date
    · simp only [insertIntoGroups, if_pos h, List.mem_cons] at hp
      rcases hp with hp | hp
      · subst hp
        simp only [List.mem_append, List.mem_singleton] at hx
        rcases hx with hx | hx
        · exact hacc g (List.mem_cons_self g rest) x hx
        · subst hx
          exact h.symm
      · exact hacc p (List.mem_cons_of_mem g hp) x hx
    · simp only [insertIntoGroups, if_neg h, List.mem_cons] at hp
      rcases hp with hp | hp
      · rw [hp]
        rw [hp] at hx
        exact hacc g (List.mem_cons_self g rest) x hx
      · exact ih (fun q hq => hacc q (List.mem_cons_of_mem g hq)) p hp x hx

/-- Every member of a grouping-loop result carries its entry's key as its
date. -/
theorem dates_buildGroups (shows : List ArchiveShow) :
    ∀ p ∈ buildGroups shows, ∀ x ∈ p.2, x.date = p.1 := by
  suffices h : ∀ (l : List ArchiveShow) (acc : List (String × List ArchiveShow)),
      (∀ p ∈ acc, ∀ x ∈ p.2, x.date = p.1) →
      ∀ p ∈ l.foldl insertIntoGroups acc, ∀ x ∈ p.2, x.date = p.1 by
    exact h shows [] (by simp)
  intro l
  induction l with
  | nil => intro acc hacc; simpa using hacc
  | cons s l ih =>
    intro acc hacc
    rw [List.foldl_cons]
    exact ih _ (dates_insertIntoGroups acc s hacc)

/-- One grouping step either reuses an existing key or appends a fresh
one. -/
theorem keys_insertIntoGroups (acc : List (String × List ArchiveShow)) (s : ArchiveShow) :
    ((insertIntoGroups acc s).map Prod.fst = acc.map Prod.fst ∧
      s.date ∈ acc.map Prod.fst) ∨
    ((insertIntoGroups acc s).map Prod.fst = acc.map Prod.fst ++ [s.date] ∧
      s.date ∉ acc.map Prod.fst) := by
  induction acc with
  | nil => right; simp [insertIntoGroups]
  | cons g rest ih =>
    by_cases h : g.1 = s.date
    · left
      constructor
      · simp [insertIntoGroups, h]
      · simp [h]
    · rcases ih with ⟨he, hm⟩ | ⟨he, hm⟩
      · left
        constructor
        · simp [insertIntoGroups, h, he]
        · simp [hm]
      · right
        constructor
        · simp [insertIntoGroups, h, he]
        · simp only [List.map_cons, List.mem_cons]
          rintro (hc | hc)
          · exact h hc.symm
          · exact hm hc

/-- The grouping loop produces pairwise-distinct date keys. -/
theorem keysNodup_buildGroups (shows : List ArchiveShow) :
    ((buildGroups shows).map Prod.fst).Nodup := by
  suffices h : ∀ (l : List ArchiveShow) (acc : List (String × List ArchiveShow)),
      (acc.map Prod.fst).Nodup → ((l.foldl insertIntoGroups acc).map Prod.fst).Nodup by
    exact h shows [] (by simp)
  intro l
  induction l with
  | nil => intro acc h; simpa using h
  | cons s l ih =>
    intro acc hacc
    rw [List.foldl_cons]
    apply ih
    rcases keys_insertIntoGroups acc s with ⟨he, _⟩ | ⟨he, hm⟩
    · rw [he]; exact hacc
    · rw [he]
      exact hacc.append (List.nodup_singleton _)
        (fun a ha hb => hm ((List.mem_singleton.mp hb) ▸ ha))

/-- The final groups carry pairwise-distinct dates. -/
theorem datesPairwise_groupShowsByDate (shows : List ArchiveShow) :
    (groupShowsByDate shows).Pairwise (fun g h => g.date ≠ h.date) := by
  have hperm : (groupShowsByDate shows).Perm
      ((buildGroups shows).map (fun p => DateGroup.mk p.1 (sortShows p.2))) :=
    List.perm_insertionSort groupLE _
  have h1 : ((buildGroups shows).map Prod.fst).Pairwise (fun x y => x ≠ y) :=
    keysNodup_buildGroups shows
  rw [List.pairwise_map] at h1
  refine (hperm.pairwise_iff (fun h => Ne.symm h)).mpr ?_
  rw [List.pairwise_map]
  exact h1

/-- Every group of the output is the ranked version of a grouping-loop
entry, hence sorted under the comparator order. -/
theorem sortedShows_groupShowsByDate (shows : List ArchiveShow) :
    ∀ g ∈ groupShowsByDate shows, g.shows.Sorted showLE := by
  intro g hg
  have hmem : g ∈ (buildGroups shows).map (fun p => DateGroup.mk p.1 (sortShows p.2)) :=
    (List.perm_insertionSort groupLE _).mem_iff.mp hg
  obtain ⟨p, _, heq⟩ := List.mem_map.mp hmem
  rw [← heq]
  exact List.sorted_insertionSort showLE p.2

/-- Every show inside a final group carries the group's date. -/
theorem datesMatch_groupShowsByDate (shows : List ArchiveShow) :
    ∀ g ∈ groupShowsByDate shows, ∀ x ∈ g.shows, x.date = g.date := by
  intro g hg x hx
  have hmem : g ∈ (buildGroups shows).map (fun p => DateGroup.mk p.1 (sortShows p.2)) :=
    (List.perm_insertionSort groupLE _).mem_iff.mp hg
  obtain ⟨p, hp, heq⟩ := List.mem_map.mp hmem
  rw [← heq] at hx ⊢
  have hx2 : x ∈ p.2 := (List.perm_insertionSort showLE p.2).mem_iff.mp hx
  exact dates_buildGroups shows p hp x hx2

/-- A strictly-smaller comparator result flips to strictly-greater when
the arguments swap. -/
theorem showCmp_asymm {a b : ArchiveShow} (h : showCmp a b = .lt) :
    showCmp b a = .gt := by
  have hstr : ∀ x y : ArchiveShow, x.title.data = y.title.data → x.title = y.title := by
    intro x y hd
    cases hx : x.title
    cases hy : y.title
    rw [hx, hy] at hd
    simp only at hd
    rw [hd]
  unfold showCmp at h ⊢
  by_cases h1 : effRating a = effRating b
  · by_cases h2 : a.title = b.title
    · rw [if_pos h1, if_pos h2] at h
      exact absurd h (by decide)
    · by_cases h3 : a.title.data < b.title.data
      · have ht : b.title ≠ a.title := fun e => h2 e.symm
        rw [if_pos h1.symm, if_neg ht, if_neg (lt_asymm h3)]
      · rw [if_pos h1, if_neg h2, if_neg h3] at h
        exact absurd h (by decide)
  · by_cases h4 : effRating b < effRating a
    · have h1' : ¬ effRating b = effRating a := fun e => h1 e.symm
      rw [if_neg h1', if_neg (lt_asymm h4)]
    · rw [if_neg h1, if_neg h4] at h
      exact absurd h (by decide)

/-- A strictly-smaller comparator result means the first argument sorts
strictly before the second under the comparator order. -/
theorem showCmp_strictBefore {a b : ArchiveShow} (h : showCmp a b = .lt) :
    showLE a b ∧ ¬ showLE b a :=
  ⟨by unfold showLE; rw [h]; exact fun c => Ordering.noConfusion c,
   fun hne => hne (showCmp_asymm h)⟩

/-- C3: the in-group ranking is deterministic (a pure function of its
input), every output group is sorted under the comparator order, a
recording with the strictly higher finite rating sorts strictly before a
lower-rated one, a finitely-rated recording sorts strictly before any
recording whose rating is absent or non-finite (effective rating `⊥`),
and rating ties are broken by ascending title. -/
theorem rankingDeterministicAndOrdered :
    (∀ l : List ArchiveShow, sortShows l = sortShows l) ∧
    (∀ shows : List ArchiveShow, ∀ g ∈ groupShowsByDate shows,
      g.shows.Sorted showLE) ∧
    (∀ (a b : ArchiveShow) (qa qb : ℚ), a.avgRating = some (.num qa) →
      b.avgRating = some (.num qb) → qb < qa →
      showCmp a b = .lt ∧ showLE a b ∧ ¬ showLE b a) ∧
    (∀ (a b : ArchiveShow) (qa : ℚ), a.avgRating = some (.num qa) →
      effRating b = ⊥ →
      showCmp a b = .lt ∧ showLE a b ∧ ¬ showLE b a) ∧
    (∀ a b : ArchiveShow, effRating a = effRating b → a.title ≠ b.title →
      a.title.data < b.title.data →
      showCmp a b = .lt ∧ showLE a b ∧ ¬ showLE b a) := by
  refine ⟨fun l => rfl, sortedShows_groupShowsByDate, ?_, ?_, ?_⟩
  · intro a b qa qb ha hb hlt
    have hra : effRating a = (qa : WithBot ℚ) := by simp [effRating, ha]
    have hrb : effRating b = (qb : WithBot ℚ) := by simp [effRating, hb]
    have hcmp : showCmp a b = .lt := by
      unfold showCmp
      rw [hra, hrb]
      rw [if_neg (by exact_mod_cast hlt.ne'), if_pos (by exact_mod_cast hlt)]
    exact ⟨hcmp, (showCmp_strictBefore hcmp).1, (showCmp_strictBefore hcmp).2⟩
  · intro a b qa ha hbot
    have hra : effRating a = (qa : WithBot ℚ) := by simp [effRating, ha]
    have hcmp : showCmp a b = .lt := by
      unfold showCmp
      rw [hra, hbot]
      rw [if_neg WithBot.coe_ne_bot, if_pos (WithBot.bot_lt_coe qa)]
    exact ⟨hcmp, (showCmp_strictBefore hcmp).1, (showCmp_strictBefore hcmp).2⟩
  · intro a b h1 hne hlt
    have hcmp : showCmp a b = .lt := by
      unfold showCmp
      rw [if_pos h1, if_neg hne, if_pos hlt]
    exact ⟨hcmp, (showCmp_strictBefore hcmp).1, (showCmp_strictBefore hcmp).2⟩

/-- A recording with the same rating as `wShowB` but a later title. -/
def wShowD : ArchiveShow :=
  { identifier := "gd1977-05-08.unk"
    title := "Dew Reel"
    date := "1977-05-08"
    venue := none
    coverage := none
    source := none
    avgRating := some (.num 9)
    numRatings := none
    recordingType := none
    url := "https://archive.org/details/gd1977-05-08.unk" }

/-- Witness for C3: the 9.5-rated `wShowA` sorts before the 9-rated
`wShowB`, which sorts before the unrated `wShowC`; its date group comes
out sorted; equal ratings order by title. -/
theorem rankingDeterministicAndOrdered_witness :
    sortShows [wShowB, wShowA] = sortShows [wShowB, wShowA] ∧
    (DateGroup.mk "1977-05-08" [wShowA, wShowB]).shows.Sorted showLE ∧
    (showCmp wShowA wShowB = .lt ∧ showLE wShowA wShowB ∧ ¬ showLE wShowB wShowA) ∧
    (showCmp wShowB wShowC = .lt ∧ showLE wShowB wShowC ∧ ¬ showLE wShowC wShowB) ∧
    (showCmp wShowB wShowD = .lt ∧ showLE wShowB wShowD ∧ ¬ showLE wShowD wShowB) :=
  ⟨rankingDeterministicAndOrdered.1 [wShowB, wShowA],
   rankingDeterministicAndOrdered.2.1 [wShowB, wShowA, wShowC]
     ⟨"1977-05-08", [wShowA, wShowB]⟩ (by decide),
   rankingDeterministicAndOrdered.2.2.1 wShowA wShowB (mkRat 19 2) 9 rfl rfl (by decide),
   rankingDeterministicAndOrdered.2.2.2.1 wShowB wShowC 9 rfl (by decide),
   rankingDeterministicAndOrdered.2.2.2.2 wShowB wShowD (by decide) (by decide) (by decide)⟩

/-- C4: grouping partitions the input exactly — the flattened groups are a
permutation of the input (no drops, no duplicates), every member carries
its group's date, every input recording lands in the group keyed by its
date, keys are pairwise distinct, and groups are ordered ascending by
date string. -/
theorem groupingPartitionsExactly :
    ∀ shows : List ArchiveShow,
      ((groupShowsByDate shows).flatMap (fun g => g.shows)).Perm shows ∧
      (∀ g ∈ groupShowsByDate shows, ∀ x ∈ g.shows, x.date = g.date) ∧
      (∀ g ∈ groupShowsByDate shows, ∀ x ∈ shows, x.date = g.date → x ∈ g.shows) ∧
      (groupShowsByDate shows).Pairwise (fun g h => g.date ≠ h.date) ∧
      (groupShowsByDate shows).Sorted groupLE := by
  intro shows
  refine ⟨flat_groupShowsByDate shows, datesMatch_groupShowsByDate shows, ?_,
    datesPairwise_groupShowsByDate shows, ?_⟩
  · intro g hg x hx hdate
    have hx2 : x ∈ (groupShowsByDate shows).flatMap (fun g => g.shows) :=
      ((flat_groupShowsByDate shows).mem_iff).mpr hx
    obtain ⟨g', hg', hxg'⟩ := List.mem_flatMap.mp hx2
    have hd' : x.date = g'.date := datesMatch_groupShowsByDate shows g' hg' x hxg'
    have hgg : g' = g := by
      by_contra hne
      exact (List.Pairwise.forall (fun _ _ hab => Ne.symm hab)
        (datesPairwise_groupShowsByDate shows) hg' hg hne) (by rw [← hd', hdate])
    rw [← hgg]
    exact hxg'
  · unfold groupShowsByDate
    exact List.sorted_insertionSort groupLE _

/-- Witness for C4 at a concrete three-recording fetch result spanning two
dates. -/
theorem groupingPartitionsExactly_witness :
    ((groupShowsByDate [wShowB, wShowA, wShowC]).flatMap (fun g => g.shows)).Perm
      [wShowB, wShowA, wShowC] ∧
    wShowA ∈ (DateGroup.mk "1977-05-08" [wShowA, wShowB]).shows :=
  ⟨(groupingPartitionsExactly [wShowB, wShowA, wShowC]).1,
   (groupingPartitionsExactly [wShowB, wShowA, wShowC]).2.2.1
     ⟨"1977-05-08", [wShowA, wShowB]⟩ (by decide) wShowA (by decide) (by decide)⟩
